import Mathlib

/-
Verification of the sling HTTP request builder and sender.

This file gives a shallow embedding of the relevant parts of the source:
the decode dispatcher (decodeResponse), the send entry point (Sling.Do),
the byte sender (HttpWrapper.Do), the query merge (buildQueryParamUrl),
the header canonicalization visible through AddHeader/SetHeader/addHeaders,
the fluent builder operations (Path, Request, QueryParams, ResponseDecoder,
WithSuccessDecider), the clone constructor (Sling.New) with reference
semantics for the shared query-param map, and a spec-modelled retry loop.

Go byte strings are modelled as List Nat, Go maps as association lists,
interface values that may be nil as Option, and fallible calls as Except.
-/

/-- Response metadata the repository inspects: StatusCode and ContentLength
of an http.Response (Go int fields, modelled as Int; ContentLength is -1
when unknown). -/
structure HttpResponse where
  statusCode : Int
  contentLength : Int
deriving DecidableEq, Repr

/-- The runtime type of a decode target passed to Receive/Do/decodeResponse:
a nil interface, a pointer to Raw (raw-capture), or any other non-nil typed
target. -/
inductive TargetSlot
  | nilT
  | rawT
  | typedT
deriving DecidableEq, Repr

/-- Observable effect of one decodeResponse call: a verbatim byte write into
a Raw target (flag true = success slot), an invocation of the pluggable
decoder (flag true = success slot, with the bytes passed), and the returned
error. -/
structure DecodeEffect where
  rawWrite : Option (Bool × List Nat)
  decodeCall : Option (Bool × List Nat)
  err : Option String
deriving DecidableEq, Repr

/-- The effect of a decode path that touches nothing and returns no error. -/
def noDecode : DecodeEffect := { rawWrite := none, decodeCall := none, err := none }

/-- DecodeOnSuccess from the source: decode when the status code is 2xx. -/
def DecodeOnSuccess (resp : HttpResponse) : Bool :=
  decide (200 ≤ resp.statusCode ∧ resp.statusCode ≤ 299)

/-- decodeResponse from src/unnamed/part_001 lines 479-501: classify with
isSuccess, then switch on the runtime type of the corresponding target
(nil, pointer to Raw, or typed), writing bytes verbatim for Raw, invoking
the decoder for typed targets, and doing nothing for nil. The decoder is
modelled by its observable result on the buffered bytes. -/
def decodeResponse (resp : HttpResponse) (rawData : List Nat)
    (isSuccess : HttpResponse → Bool) (decoder : List Nat → Option String)
    (successV failureV : TargetSlot) : DecodeEffect :=
  if isSuccess resp then
    match successV with
    | .nilT => noDecode
    | .rawT => { rawWrite := some (true, rawData), decodeCall := none, err := none }
    | .typedT => { rawWrite := none, decodeCall := some (true, rawData), err := decoder rawData }
  else
    match failureV with
    | .nilT => noDecode
    | .rawT => { rawWrite := some (false, rawData), decodeCall := none, err := none }
    | .typedT => { rawWrite := none, decodeCall := some (false, rawData), err := decoder rawData }

/-- Result of s.httpClient.Do(req) as seen by Sling.Do: on error the Doer
may still hand back partial metadata and bytes; on success the response
metadata is present (Go guarantees resp non-nil when err is nil). -/
inductive SendResult
  | failure (resp : Option HttpResponse) (rawData : List Nat) (e : String)
  | success (resp : HttpResponse) (rawData : List Nat)
deriving DecidableEq, Repr

/-- The metadata component of a send result. -/
def SendResult.respOf : SendResult → Option HttpResponse
  | .failure r _ _ => r
  | .success r _ => some r

/-- The buffered-bytes component of a send result. -/
def SendResult.rawOf : SendResult → List Nat
  | .failure _ d _ => d
  | .success _ d => d

/-- The Response envelope from src/unnamed/part_000: response metadata plus
the buffered RawData bytes. -/
structure Response where
  resp : Option HttpResponse
  rawData : List Nat
deriving DecidableEq, Repr

/-- NewResponse from src/unnamed/part_000: bundle metadata and bytes. -/
def NewResponse (resp : Option HttpResponse) (rawData : List Nat) : Response :=
  { resp := resp, rawData := rawData }

/-- Sling.Do from src/unnamed/part_001 lines 456-472: send, return the
envelope with the transport error if any; otherwise skip decoding on 204 or
ContentLength 0; otherwise dispatch to decodeResponse when at least one
target is non-nil. The returned triple is (envelope, error, decode effect). -/
def Sling.Do (isSuccess : HttpResponse → Bool) (decoder : List Nat → Option String)
    (sendResult : SendResult) (successV failureV : TargetSlot) :
    Response × Option String × DecodeEffect :=
  match sendResult with
  | .failure r raw e => (NewResponse r raw, some e, noDecode)
  | .success resp raw =>
    if resp.statusCode = 204 ∨ resp.contentLength = 0 then
      (NewResponse (some resp) raw, none, noDecode)
    else if successV ≠ TargetSlot.nilT ∨ failureV ≠ TargetSlot.nilT then
      let eff := decodeResponse resp raw isSuccess decoder successV failureV
      (NewResponse (some resp) raw, eff.err, eff)
    else
      (NewResponse (some resp) raw, none, noDecode)

/-- HttpWrapper.Do from src/unnamed/part_002 lines 12-30: run the inner
http client, then read the whole body. Both the client call and the body
read are modelled by their results. On client error it returns
(nil, nil, err); on body-read error it likewise returns (nil, nil, err),
dropping the metadata; on success it returns the metadata and the bytes. -/
def HttpWrapper.Do (clientResult : Except String HttpResponse)
    (readAll : HttpResponse → Except String (List Nat)) :
    Option HttpResponse × Option (List Nat) × Option String :=
  match clientResult with
  | .error e => (none, none, some e)
  | .ok resp =>
    match readAll resp with
    | .error e => (none, none, some e)
    | .ok raw => (some resp, some raw, none)

/-- Association-list model of a Go map from keys to value slices:
lookup, returning the empty slice for an absent key. -/
def getVals {κ ν : Type} [DecidableEq κ] : List (κ × List ν) → κ → List ν
  | [], _ => []
  | e :: rest, k => if e.1 = k then e.2 else getVals rest k

/-- Go append-under-key, v[key] = append(v[key], value): appends to the
slice of an existing key, creates a singleton slice for a new key. -/
def addVal {κ ν : Type} [DecidableEq κ] : List (κ × List ν) → κ → ν → List (κ × List ν)
  | [], k, v => [(k, [v])]
  | e :: rest, k, v =>
    if e.1 = k then (e.1, e.2 ++ [v]) :: rest else e :: addVal rest k v

/-- Go replace-under-key, v[key] = values: replaces the whole slice of an
existing key, creates the entry for a new key. -/
def setVals {κ ν : Type} [DecidableEq κ] : List (κ × List ν) → κ → List ν → List (κ × List ν)
  | [], k, vs => [(k, vs)]
  | e :: rest, k, vs =>
    if e.1 = k then (k, vs) :: rest else e :: setVals rest k vs

/-- Go strings at the byte level, as net/textproto manipulates them. -/
abbrev ByteStr := List Nat

/-- ASCII lower-casing of one byte, as in net/textproto. -/
def toLowerByte (n : Nat) : Nat := if 65 ≤ n ∧ n ≤ 90 then n + 32 else n

/-- ASCII upper-casing of one byte, as in net/textproto. -/
def toUpperByte (n : Nat) : Nat := if 97 ≤ n ∧ n ≤ 122 then n - 32 else n

/-- validHeaderFieldByte from net/textproto: the token bytes of RFC 7230,
namely digits, letters, and the bytes of the other allowed symbols. -/
def validHeaderFieldByte (c : Nat) : Bool :=
  decide ((48 ≤ c ∧ c ≤ 57) ∨ (65 ≤ c ∧ c ≤ 90) ∨ (97 ≤ c ∧ c ≤ 122) ∨
    c = 33 ∨ c = 35 ∨ c = 36 ∨ c = 37 ∨ c = 38 ∨ c = 39 ∨ c = 42 ∨ c = 43 ∨
    c = 45 ∨ c = 46 ∨ c = 94 ∨ c = 95 ∨ c = 96 ∨ c = 124 ∨ c = 126)

/-- The case-mapping loop of canonicalMIMEHeaderKey: upper-case a byte at
the start and after each hyphen (byte 45), lower-case it elsewhere. -/
def canonBytes : Bool → ByteStr → ByteStr
  | _, [] => []
  | upper, c :: rest =>
    (if upper then toUpperByte c else toLowerByte c) :: canonBytes (decide (c = 45)) rest

/-- CanonicalMIMEHeaderKey from net/textproto, used by http.Header.Add and
http.Header.Set: keys made only of valid header field bytes are
case-canonicalized; any other key is returned unmodified. -/
def canonicalMIMEHeaderKey (s : ByteStr) : ByteStr :=
  if s.all validHeaderFieldByte then canonBytes true s else s

/-- The header container of the builder: an http.Header, a map from
canonicalized keys to ordered value slices. -/
abbrev HeaderMap := List (ByteStr × List ByteStr)

/-- http.Header.Add: canonicalize the key, append the value. -/
def Header.Add (h : HeaderMap) (k v : ByteStr) : HeaderMap :=
  addVal h (canonicalMIMEHeaderKey k) v

/-- http.Header.Set: canonicalize the key, replace all values with one. -/
def Header.Set (h : HeaderMap) (k v : ByteStr) : HeaderMap :=
  setVals h (canonicalMIMEHeaderKey k) [v]

/-- http.Header.Values: canonicalize the key, look its values up. -/
def Header.ValuesOf (h : HeaderMap) (k : ByteStr) : List ByteStr :=
  getVals h (canonicalMIMEHeaderKey k)

/-- addHeaders from src/unnamed/part_001 lines 408-414: for every key of
the builder header, Add every one of its values to the request header. -/
def addHeaders (reqHeader : HeaderMap) (header : HeaderMap) : HeaderMap :=
  header.foldl (fun acc e => e.2.foldl (fun a v => Header.Add a e.1 v) acc) reqHeader

deriving instance DecidableEq for Except

/-- The Sling builder from src/unnamed/part_001 lines 43-62, restricted to
the state the claims are about. The pluggable responseDecoder and isSuccess
strategies are interface values that may be nil, modelled as Option over
abstract types D and P; queryStructs entries are opaque handles; the
bodyProvider is modelled by the result of its Body() call. -/
structure Sling (D P : Type) where
  method : String
  rawURL : String
  header : HeaderMap
  queryStructs : List Nat
  queryParams : List (String × String)
  bodyProvider : Option (Except String (List Nat))
  responseDecoder : Option D
  isSuccess : Option P
deriving DecidableEq

/-- Sling.AddHeader from src/unnamed/part_001 lines 217-220. -/
def Sling.AddHeader {D P : Type} (s : Sling D P) (k v : ByteStr) : Sling D P :=
  { s with header := Header.Add s.header k v }

/-- Sling.SetHeader from src/unnamed/part_001 lines 224-227. -/
def Sling.SetHeader {D P : Type} (s : Sling D P) (k v : ByteStr) : Sling D P :=
  { s with header := Header.Set s.header k v }

/-- Sling.ResponseDecoder from src/unnamed/part_001 lines 419-425: a nil
decoder argument is returned without assignment. -/
def Sling.ResponseDecoder {D P : Type} (s : Sling D P) (decoder : Option D) : Sling D P :=
  match decoder with
  | none => s
  | some _ => { s with responseDecoder := decoder }

/-- Sling.WithSuccessDecider from src/unnamed/part_001 lines 249-252: the
argument is assigned unconditionally, with no nil guard. -/
def Sling.WithSuccessDecider {D P : Type} (s : Sling D P) (isSuccess : Option P) : Sling D P :=
  { s with isSuccess := isSuccess }

/-- Sling.QueryParams from src/unnamed/part_001 lines 290-295: a non-nil
map replaces the field wholesale; a nil map leaves it untouched. -/
def Sling.QueryParams {D P : Type} (s : Sling D P) (params : Option (List (String × String))) :
    Sling D P :=
  match params with
  | none => s
  | some m => { s with queryParams := m }

/-- Sling.Path from src/unnamed/part_001 lines 265-276: parse both the
current rawURL and the path argument; if both parse, resolve the reference
and restore a trailing slash the resolution dropped; if either fails to
parse, return the builder unchanged. url.Parse and ResolveReference are
external, passed as parameters. -/
def Sling.Path {D P URL : Type} (parse : String → Except String URL)
    (resolveStr : URL → URL → String) (s : Sling D P) (path : String) : Sling D P :=
  match parse s.rawURL, parse path with
  | Except.ok b, Except.ok q =>
    let r := resolveStr b q
    let r2 := if path.endsWith ("/") && !(r.endsWith ("/")) then r ++ ("/") else r
    { s with rawURL := r2 }
  | _, _ => s

/-- The result of invoking the body provider, per the nil check of Request:
no provider yields no body; a failing provider aborts; otherwise the body. -/
def bodyResult : Option (Except String (List Nat)) → Except String (Option (List Nat))
  | none => Except.ok none
  | some (Except.error e) => Except.error e
  | some (Except.ok b) => Except.ok (some b)

/-- Sling.Request from src/unnamed/part_001 lines 352-376: parse the
rawURL (abort on error), merge the query (abort on error), invoke the body
provider (abort on error), create the request (abort on error), then attach
the headers. The external url.Parse, query building on the parsed URL, and
http.NewRequestWithContext are passed as parameters. -/
def Sling.Request {D P URL Req : Type} (parse : String → Except String URL)
    (buildQuery : URL → List Nat → List (String × String) → Except String URL)
    (newRequest : String → URL → Option (List Nat) → Except String Req)
    (attachH : Req → HeaderMap → Req) (s : Sling D P) : Except String Req :=
  match parse s.rawURL with
  | Except.error e => Except.error e
  | Except.ok u =>
    match buildQuery u s.queryStructs s.queryParams with
    | Except.error e => Except.error e
    | Except.ok u2 =>
      match bodyResult s.bodyProvider with
      | Except.error e => Except.error e
      | Except.ok b =>
        match newRequest s.method u2 b with
        | Except.error e => Except.error e
        | Except.ok req => Except.ok (attachH req s.header)

/-- Whether an Except is a success, as a Bool. -/
def exceptOk {ε α : Type} : Except ε α → Bool
  | Except.ok _ => true
  | Except.error _ => false

/-- Lookup in the flat query-param map (a Go map String to String). -/
def lookupParam : List (String × String) → String → Option String
  | [], _ => none
  | p :: rest, k => if p.1 = k then some p.2 else lookupParam rest k

/-- Go map assignment m[k] = v on a String-to-String map. -/
def setParam : List (String × String) → String → String → List (String × String)
  | [], k, v => [(k, v)]
  | p :: rest, k, v => if p.1 = k then (k, v) :: rest else p :: setParam rest k v

/-- A heap of live Go String-to-String maps, to make map reference sharing
observable: a map value is addressed by its index. -/
structure GoHeap where
  qmaps : List (List (String × String))
deriving DecidableEq

/-- Assignment into the heap map at reference r. -/
def GoHeap.mapAssign (h : GoHeap) (r : Nat) (k v : String) : GoHeap :=
  { qmaps := h.qmaps.set r (setParam (h.qmaps.getD r []) k v) }

/-- The builder state for the clone claim, with the queryParams field kept
as a heap reference because Go maps are reference values. -/
structure SlingR where
  method : String
  rawURL : String
  header : List (String × List String)
  queryStructs : List Nat
  queryParamsRef : Nat
deriving DecidableEq

/-- Sling.New from src/unnamed/part_001 lines 93-110: the header map is
copied pair by pair into a fresh map, the queryStructs slice is copied via
append onto a fresh slice, but the queryParams field is assigned directly,
so parent and clone share one map reference. -/
def SlingR.New (s : SlingR) : SlingR :=
  { method := s.method,
    rawURL := s.rawURL,
    header := s.header.foldl (fun acc kv => acc ++ [kv]) [],
    queryStructs := [] ++ s.queryStructs,
    queryParamsRef := s.queryParamsRef }

/-- The flat query-param map a builder observes through its reference. -/
def SlingR.observeQueryParams (h : GoHeap) (s : SlingR) : List (String × String) :=
  h.qmaps.getD s.queryParamsRef []

/-- A concrete parent builder for the clone claim, whose flat query-param
map lives at heap reference 0. -/
def parentR : SlingR :=
  { method := "GET", rawURL := "", header := [], queryStructs := [], queryParamsRef := 0 }

/-- The heap in which the map of parentR holds the single pair a to 1. -/
def heap0 : GoHeap := { qmaps := [[("a", "1")]] }

/-- A concrete builder used by witnesses and counterexamples. -/
def sampleSling : Sling Nat Nat :=
  { method := "GET", rawURL := "http://good/", header := [],
    queryStructs := [], queryParams := [("a", "1")],
    bodyProvider := none, responseDecoder := some 7, isSuccess := some 0 }

/-- A concrete builder whose rawURL does not parse. -/
def badSling : Sling Nat Nat := { sampleSling with rawURL := "bad url" }

/-- A concrete stand-in for url.Parse that fails on the base of badSling
and succeeds elsewhere, as net/url.Parse does on a URL with a space. -/
def parseBadBase : String → Except String String :=
  fun u => if u = "bad url" then Except.error ("parse failure") else Except.ok u

/-- A concrete stand-in for url.Parse that fails exactly on the invalid
percent-escape "%zz", as net/url.Parse does, and succeeds elsewhere. -/
def parsePctZZ : String → Except String String :=
  fun u => if u = "%zz" then Except.error ("invalid URL escape") else Except.ok u

/-- Modelled from the spec: the default BackoffStrategy of the retry
decorator enabled by Sling.AutoRetry (src/unnamed/part_001 lines 143-146);
the decorator itself (NewRetryDoer and its options) is not under src/.
Spec section 4.3: wait = min(maxWait, minWait * 2 to the attempt), attempt
starting at 0. Durations are in seconds. -/
def backoffDefault (attempt minWait maxWait : Nat) : Nat :=
  min maxWait (minWait * 2 ^ attempt)

/-- Modelled from the spec: the retry loop of the retry decorator (absent
from src/, declared through Sling.AutoRetry). Invoke the inner sender; if
the policy reports terminal or the remaining extra attempts are exhausted,
stop; otherwise wait for backoff(attempt, minWait, maxWait) and retry with
the attempt counter incremented. Returns the total number of sends and the
list of waits, in order. -/
def retryGo {α : Type} (inner : Nat → α) (policy : α → Bool)
    (backoff : Nat → Nat → Nat → Nat) (minWait maxWait : Nat) :
    Nat → Nat → Nat × List Nat
  | 0, _ => (1, [])
  | Nat.succ r, attempt =>
    if policy (inner attempt) then
      let rest := retryGo inner policy backoff minWait maxWait r (attempt + 1)
      (rest.1 + 1, backoff attempt minWait maxWait :: rest.2)
    else (1, [])

/-- The bytes of the lower-case key content-type. -/
def ctLower : ByteStr := [99, 111, 110, 116, 101, 110, 116, 45, 116, 121, 112, 101]

/-- The bytes of the canonical key Content-Type. -/
def ctCanon : ByteStr := [67, 111, 110, 116, 101, 110, 116, 45, 84, 121, 112, 101]

/-- url.Values: a Go map from a query key to its ordered value slice. -/
abbrev Values := List (String × List String)

/-- The inner loop of buildQueryParamUrl over one encoded query struct:
for every key of the struct encoding, Add each of its values in order.
Iteration order over distinct keys of the Go map is unspecified; one order
is fixed here, and the per-key content and the sorted encoding below do
not depend on it. -/
def addStructVals (vs : Values) : Values → Values
  | [] => vs
  | e :: rest => addStructVals (e.2.foldl (fun b v => addVal b e.1 v) vs) rest

/-- The loop of buildQueryParamUrl over the flat query-param map: Add each
pair, applied after all struct contributions. -/
def addPairs (vs : Values) : List (String × String) → Values
  | [] => vs
  | p :: rest => addPairs (addVal vs p.1 p.2) rest

/-- The loop of buildQueryParamUrl over the attached query structs, each
modelled by the result of its goquery.Values encoding: the first encoding
error aborts; otherwise the encodings are merged in attachment order. -/
def mergeStructs (vs : Values) : List (Except String Values) → Except String Values
  | [] => Except.ok vs
  | Except.error e :: _ => Except.error e
  | Except.ok qv :: rest => mergeStructs (addStructVals vs qv) rest

/-- Insertion of one entry into a key-sorted Values list. -/
def insertEntry (e : String × List String) : Values → Values
  | [] => [e]
  | f :: rest => if e.1 ≤ f.1 then e :: f :: rest else f :: insertEntry e rest

/-- The key sort performed by url.Values.Encode. -/
def sortByKey : Values → Values
  | [] => []
  | e :: rest => insertEntry e (sortByKey rest)

/-- Flattening of grouped values into the key=value pair sequence of the
encoded query string. -/
def flattenVals : Values → List (String × String)
  | [] => []
  | e :: rest => e.2.map (fun v => (e.1, v)) ++ flattenVals rest

/-- url.Values.Encode: emit all pairs grouped by key, keys sorted
alphabetically, values of one key in insertion order. The query string
k1=v1 and k2=v2 joined by ampersands is modelled as its pair list. -/
def encodeVals (vs : Values) : List (String × String) := flattenVals (sortByKey vs)

/-- buildQueryParamUrl from src/unnamed/part_001 lines 381-404: parse the
pre-existing query of the request URL (abort on error), encode and merge
every attached query struct in attachment order (abort on the first
encoding error), Add the flat query-param map last, and store the sorted
encoding as the new query string. The external url.ParseQuery and
goquery.Values calls are modelled by their results. -/
def buildQueryParamUrl (parsedQuery : Except String Values)
    (queryStructs : List (Except String Values))
    (queryParams : List (String × String)) :
    Except String (List (String × String)) :=
  match parsedQuery with
  | Except.error e => Except.error e
  | Except.ok urlValues =>
    match mergeStructs urlValues queryStructs with
    | Except.error e => Except.error e
    | Except.ok vs => Except.ok (encodeVals (addPairs vs queryParams))

/-- The success value of an Except, with a default. -/
def okOr {α : Type} (d : α) : Except String α → α
  | Except.ok o => o
  | Except.error _ => d

/-- Per-key contribution of the attached query structs, in attachment
order: for each successfully encoded struct, the values it holds under the
key, concatenated. -/
def structContrib (structs : List (Except String Values)) (k : String) : List String :=
  (structs.map (fun x =>
    match x with
    | Except.ok qv => ((qv.filter (fun e => e.1 == k)).map Prod.snd).flatten
    | Except.error _ => [])).flatten

/-- Per-key contribution of the flat query-param map. -/
def paramContrib (params : List (String × String)) (k : String) : List String :=
  (params.filter (fun p => p.1 == k)).map Prod.snd

/-- Claim C2: for every classified response and buffered bytes, a Raw
target on the classified side receives exactly the bytes unmodified with no
decoder call and no error; a nil target is a no-op with no error; a typed
target invokes the decoder on the bytes and returns its error. -/
theorem decodeResponse_dispatch (resp : HttpResponse) (raw : List Nat)
    (isSuccess : HttpResponse → Bool) (decoder : List Nat → Option String)
    (sV fV : TargetSlot) :
    (isSuccess resp = true →
      decodeResponse resp raw isSuccess decoder TargetSlot.rawT fV =
        { rawWrite := some (true, raw), decodeCall := none, err := none } ∧
      decodeResponse resp raw isSuccess decoder TargetSlot.nilT fV = noDecode ∧
      decodeResponse resp raw isSuccess decoder TargetSlot.typedT fV =
        { rawWrite := none, decodeCall := some (true, raw), err := decoder raw }) ∧
    (isSuccess resp = false →
      decodeResponse resp raw isSuccess decoder sV TargetSlot.rawT =
        { rawWrite := some (false, raw), decodeCall := none, err := none } ∧
      decodeResponse resp raw isSuccess decoder sV TargetSlot.nilT = noDecode ∧
      decodeResponse resp raw isSuccess decoder sV TargetSlot.typedT =
        { rawWrite := none, decodeCall := some (false, raw), err := decoder raw }) := by
  constructor
  · intro h
    refine ⟨?_, ?_, ?_⟩ <;> simp [decodeResponse, h]
  · intro h
    refine ⟨?_, ?_, ?_⟩ <;> simp [decodeResponse, h]

/-- Witness for decodeResponse_dispatch at concrete inputs: a 200 response
with a Raw success target, and a 500 response with a Raw failure target. -/
theorem decodeResponse_dispatch_witness :
    decodeResponse { statusCode := 200, contentLength := 5 } [104, 105]
      DecodeOnSuccess (fun _ => some ("boom")) TargetSlot.rawT TargetSlot.typedT =
      { rawWrite := some (true, [104, 105]), decodeCall := none, err := none } ∧
    decodeResponse { statusCode := 500, contentLength := 5 } [104, 105]
      DecodeOnSuccess (fun _ => some ("boom")) TargetSlot.typedT TargetSlot.rawT =
      { rawWrite := some (false, [104, 105]), decodeCall := none, err := none } := by
  exact ⟨((decodeResponse_dispatch { statusCode := 200, contentLength := 5 } [104, 105]
      DecodeOnSuccess (fun _ => some ("boom")) TargetSlot.typedT TargetSlot.typedT).1
      (by decide)).1,
    ((decodeResponse_dispatch { statusCode := 500, contentLength := 5 } [104, 105]
      DecodeOnSuccess (fun _ => some ("boom")) TargetSlot.typedT TargetSlot.typedT).2
      (by decide)).1⟩

/-- Claim C3: when the transport succeeded and the response has status 204
or declared ContentLength 0, Sling.Do returns the envelope with no error
and performs no decode work at all, whatever the targets are. -/
theorem do_skips_decode_on_204_or_zero_length
    (isSuccess : HttpResponse → Bool) (decoder : List Nat → Option String)
    (resp : HttpResponse) (raw : List Nat) (sV fV : TargetSlot)
    (h : resp.statusCode = 204 ∨ resp.contentLength = 0) :
    Sling.Do isSuccess decoder (SendResult.success resp raw) sV fV =
      (NewResponse (some resp) raw, none, noDecode) := by
  simp [Sling.Do, h]

/-- Witness for do_skips_decode_on_204_or_zero_length: a 204 response with
both targets non-nil. -/
theorem do_skips_decode_witness :
    Sling.Do DecodeOnSuccess (fun _ => some ("boom"))
      (SendResult.success { statusCode := 204, contentLength := 10 } [1, 2])
      TargetSlot.typedT TargetSlot.typedT =
      (NewResponse (some { statusCode := 204, contentLength := 10 }) [1, 2], none, noDecode) :=
  do_skips_decode_on_204_or_zero_length DecodeOnSuccess (fun _ => some ("boom"))
    { statusCode := 204, contentLength := 10 } [1, 2]
    TargetSlot.typedT TargetSlot.typedT (Or.inl rfl)

/-- Claim C7 counterexample: when the inner client produced response
metadata (status 200) but the body read failed, HttpWrapper.Do returns nil
metadata and nil bytes alongside the error, so the best-effort metadata is
discarded, contrary to the claim. -/
theorem httpWrapper_drops_metadata_on_read_error :
    HttpWrapper.Do (Except.ok { statusCode := 200, contentLength := 5 })
      (fun _ => Except.error ("read failed")) = (none, none, some ("read failed")) ∧
    (HttpWrapper.Do (Except.ok { statusCode := 200, contentLength := 5 })
      (fun _ => Except.error ("read failed"))).1 ≠
      some { statusCode := 200, contentLength := 5 } := by
  refine ⟨rfl, ?_⟩
  decide

/-- Claim C7, amended: Sling.Do always constructs and returns a Response
envelope carrying whatever metadata and bytes the sender handed over, even
under a transport error; but on a body-read failure HttpWrapper.Do itself
hands over no metadata and no bytes, only the error. -/
theorem envelope_always_constructed
    (isSuccess : HttpResponse → Bool) (decoder : List Nat → Option String)
    (sr : SendResult) (sV fV : TargetSlot)
    (resp : HttpResponse) (readAll : HttpResponse → Except String (List Nat)) (e : String) :
    (Sling.Do isSuccess decoder sr sV fV).1 = NewResponse sr.respOf sr.rawOf ∧
    (readAll resp = Except.error e →
      HttpWrapper.Do (Except.ok resp) readAll = (none, none, some e)) := by
  constructor
  · cases sr with
    | failure r raw err => rfl
    | success r raw =>
      simp only [Sling.Do, SendResult.respOf, SendResult.rawOf]
      split
      · rfl
      · split <;> rfl
  · intro h
    simp [HttpWrapper.Do, h]

/-- Witness for envelope_always_constructed: a failed send that still
carried metadata and bytes yields an envelope with exactly those, and a
body-read failure makes HttpWrapper.Do drop the metadata. -/
theorem envelope_always_constructed_witness :
    (Sling.Do DecodeOnSuccess (fun _ => none)
      (SendResult.failure (some { statusCode := 200, contentLength := 3 }) [9] ("boom"))
      TargetSlot.nilT TargetSlot.nilT).1 =
      NewResponse (some { statusCode := 200, contentLength := 3 }) [9] ∧
    HttpWrapper.Do (Except.ok { statusCode := 200, contentLength := 3 })
      (fun _ => Except.error ("rf")) = (none, none, some ("rf")) := by
  exact ⟨(envelope_always_constructed DecodeOnSuccess (fun _ => none)
      (SendResult.failure (some { statusCode := 200, contentLength := 3 }) [9] ("boom"))
      TargetSlot.nilT TargetSlot.nilT { statusCode := 200, contentLength := 3 }
      (fun _ => Except.error ("rf")) ("rf")).1,
    (envelope_always_constructed DecodeOnSuccess (fun _ => none)
      (SendResult.failure (some { statusCode := 200, contentLength := 3 }) [9] ("boom"))
      TargetSlot.nilT TargetSlot.nilT { statusCode := 200, contentLength := 3 }
      (fun _ => Except.error ("rf")) ("rf")).2 rfl⟩

/-- Claim C1 (code bug): Sling.New shares the flat query-param map between
parent and clone. With the parent map at heap reference 0 holding a single
pair, the clone returned by New holds the same reference, and an assignment
through that shared reference is observed by the parent. -/
theorem new_shares_queryParams_map :
    (SlingR.New parentR).queryParamsRef = parentR.queryParamsRef ∧
    SlingR.observeQueryParams
      (GoHeap.mapAssign heap0 (SlingR.New parentR).queryParamsRef ("b") ("2"))
      parentR = [("a", "1"), ("b", "2")] ∧
    SlingR.observeQueryParams heap0 parentR = [("a", "1")] := by
  decide

/-- Claim C5 counterexample: WithSuccessDecider with a nil argument does
not leave the previously configured decider unchanged; it overwrites it
with nil. -/
theorem withSuccessDecider_nil_overwrites :
    (Sling.WithSuccessDecider sampleSling none).isSuccess = none ∧
    sampleSling.isSuccess = some 0 ∧
    (Sling.WithSuccessDecider sampleSling none).isSuccess ≠ sampleSling.isSuccess := by
  refine ⟨rfl, rfl, ?_⟩
  decide

/-- Claim C5, amended: ResponseDecoder with a nil argument is a no-op that
keeps the prior decoder, while WithSuccessDecider assigns its argument
unconditionally, so a nil argument installs a nil success-decider. -/
theorem responseDecoder_nil_noop {D P : Type} (s : Sling D P) (d : D) (p : Option P) :
    Sling.ResponseDecoder s none = s ∧
    (Sling.ResponseDecoder s (some d)).responseDecoder = some d ∧
    (Sling.WithSuccessDecider s p).isSuccess = p := by
  refine ⟨rfl, rfl, rfl⟩

/-- Absent keys look up to none in a flat query-param map. -/
theorem lookupParam_eq_none_of_not_mem (l : List (String × String)) (k : String)
    (h : k ∉ l.map Prod.fst) : lookupParam l k = none := by
  induction l with
  | nil => rfl
  | cons p rest ih =>
    simp only [List.map_cons, List.mem_cons] at h
    push_neg at h
    simp only [lookupParam]
    rw [if_neg (fun hp => h.1 hp.symm)]
    exact ih h.2

/-- Claim C10: QueryParams with a non-nil map replaces the whole flat
query-param map, discarding keys of an earlier call that are absent from
the new map, while QueryParams with nil leaves the builder unchanged. -/
theorem queryParams_replaces_map {D P : Type} (s : Sling D P)
    (m1 m2 : List (String × String)) (k : String) :
    Sling.QueryParams s none = s ∧
    (Sling.QueryParams s (some m2)).queryParams = m2 ∧
    (k ∈ m1.map Prod.fst → k ∉ m2.map Prod.fst →
      lookupParam ((Sling.QueryParams (Sling.QueryParams s (some m1))
        (some m2)).queryParams) k = none) := by
  refine ⟨rfl, rfl, fun _ h2 => ?_⟩
  exact lookupParam_eq_none_of_not_mem m2 k h2

/-- Witness for queryParams_replaces_map: key a set by the first call is
gone after the second call replaces the map. -/
theorem queryParams_replaces_map_witness :
    lookupParam ((Sling.QueryParams (Sling.QueryParams sampleSling
      (some [("a", "1")])) (some [("b", "2")])).queryParams) ("a") = none :=
  (queryParams_replaces_map sampleSling [("a", "1")] [("b", "2")] ("a")).2.2
    (by decide) (by decide)

/-- Claim C6, amended: when either the current rawURL or the path argument
fails to parse, Path leaves the builder entirely unchanged and raises no
error; when the rawURL itself fails to parse, Request surfaces that parse
error as its returned error with no request. A parse failure of only the
path argument is silently dropped, so Request may succeed (see the
counterexample). -/
theorem path_noop_and_request_surfaces_rawURL_error
    {D P URL Req : Type} (parse : String → Except String URL)
    (resolveStr : URL → URL → String)
    (buildQuery : URL → List Nat → List (String × String) → Except String URL)
    (newRequest : String → URL → Option (List Nat) → Except String Req)
    (attachH : Req → HeaderMap → Req) (s : Sling D P) (p : String) (e : String) :
    ((exceptOk (parse s.rawURL) = false ∨ exceptOk (parse p) = false) →
      Sling.Path parse resolveStr s p = s) ∧
    (parse s.rawURL = Except.error e →
      Sling.Request parse buildQuery newRequest attachH s = Except.error e) := by
  constructor
  · intro h
    cases h1 : parse s.rawURL with
    | error e1 => simp [Sling.Path, h1]
    | ok b =>
      cases h2 : parse p with
      | error e2 => simp [Sling.Path, h1, h2]
      | ok q =>
        rw [h1, h2] at h
        simp [exceptOk] at h
  · intro h
    simp [Sling.Request, h]

/-- Witness for path_noop_and_request_surfaces_rawURL_error: a builder
whose rawURL does not parse is unchanged by Path and makes Request return
exactly the parse error. -/
theorem path_noop_witness :
    Sling.Path parseBadBase (fun _ q => q) badSling ("x") = badSling ∧
    Sling.Request parseBadBase (fun u _ _ => Except.ok u)
      (fun _ _ _ => Except.ok (0 : Nat)) (fun r _ => r) badSling =
      Except.error ("parse failure") :=
  ⟨(path_noop_and_request_surfaces_rawURL_error parseBadBase (fun _ q => q)
      (fun u _ _ => Except.ok u) (fun _ _ _ => Except.ok (0 : Nat)) (fun r _ => r)
      badSling ("x") ("parse failure")).1 (Or.inl rfl),
    (path_noop_and_request_surfaces_rawURL_error parseBadBase (fun _ q => q)
      (fun u _ _ => Except.ok u) (fun _ _ _ => Except.ok (0 : Nat)) (fun r _ => r)
      badSling ("x") ("parse failure")).2 rfl⟩

/-- Claim C6 counterexample: with a parseable rawURL and a path argument
that fails to parse (as "%zz" does under net/url.Parse), Path is a no-op
as claimed, but Request then succeeds: the parse error is never surfaced,
contradicting the claim that Request returns it. -/
theorem path_bad_path_error_never_surfaced :
    Sling.Path parsePctZZ (fun _ q => q) sampleSling ("%zz") = sampleSling ∧
    Sling.Request parsePctZZ (fun u _ _ => Except.ok u)
      (fun _ _ _ => Except.ok (0 : Nat)) (fun r _ => r) sampleSling =
      Except.ok 0 := by
  exact ⟨rfl, rfl⟩

/-- Claim C8 (retry modelled from the spec): with a policy that always
signals retry, the default backoff, minWait 1, maxWait 30 and 4 extra
attempts, exactly 5 sends happen, the waits are 1, 2, 4, 8 seconds, the
wait sequence is non-decreasing, and every wait lies between minWait and
maxWait. -/
theorem retry_attempt_count_and_backoff_bounds {α : Type} (inner : Nat → α) :
    (retryGo inner (fun _ => true) backoffDefault 1 30 4 0).1 = 5 ∧
    (retryGo inner (fun _ => true) backoffDefault 1 30 4 0).2 = [1, 2, 4, 8] ∧
    List.Chain' (· ≤ ·) (retryGo inner (fun _ => true) backoffDefault 1 30 4 0).2 ∧
    (∀ w ∈ (retryGo inner (fun _ => true) backoffDefault 1 30 4 0).2,
      1 ≤ w ∧ w ≤ 30) := by
  have h : retryGo inner (fun _ => true) backoffDefault 1 30 4 0 = (5, [1, 2, 4, 8]) := rfl
  refine ⟨by rw [h], by rw [h], by rw [h]; simp [List.chain'_cons], by rw [h]; decide⟩

/-- Witness for retry_attempt_count_and_backoff_bounds: the last wait, 8,
is a wait of the run and lies within the bounds. -/
theorem retry_backoff_bounds_witness :
    8 ∈ (retryGo (fun _ => (0 : Nat)) (fun _ => true) backoffDefault 1 30 4 0).2 ∧
    (1 ≤ 8 ∧ 8 ≤ 30) :=
  ⟨by decide, (retry_attempt_count_and_backoff_bounds (fun _ => (0 : Nat))).2.2.2 8 (by decide)⟩

/-- ASCII upper-casing is idempotent on bytes. -/
theorem toUpperByte_idem (c : Nat) : toUpperByte (toUpperByte c) = toUpperByte c := by
  unfold toUpperByte
  split_ifs <;> omega

/-- ASCII lower-casing is idempotent on bytes. -/
theorem toLowerByte_idem (c : Nat) : toLowerByte (toLowerByte c) = toLowerByte c := by
  unfold toLowerByte
  split_ifs <;> omega

/-- Case-mapping a byte yields the hyphen byte exactly when the byte was
the hyphen. -/
theorem caseByte_eq_45 (b : Bool) (c : Nat) :
    ((if b then toUpperByte c else toLowerByte c) = 45) ↔ c = 45 := by
  cases b <;> simp only [toUpperByte, toLowerByte, if_true, if_false] <;>
    split_ifs <;> omega

/-- Upper-casing preserves header-field-byte validity. -/
theorem validHeaderFieldByte_toUpper (c : Nat) (h : validHeaderFieldByte c = true) :
    validHeaderFieldByte (toUpperByte c) = true := by
  simp only [validHeaderFieldByte, decide_eq_true_eq] at h ⊢
  unfold toUpperByte
  split_ifs <;> omega

/-- Lower-casing preserves header-field-byte validity. -/
theorem validHeaderFieldByte_toLower (c : Nat) (h : validHeaderFieldByte c = true) :
    validHeaderFieldByte (toLowerByte c) = true := by
  simp only [validHeaderFieldByte, decide_eq_true_eq] at h ⊢
  unfold toLowerByte
  split_ifs <;> omega

/-- The canonical case-mapping preserves validity of every byte. -/
theorem canonBytes_all_valid (b : Bool) (l : List Nat)
    (h : l.all validHeaderFieldByte = true) :
    (canonBytes b l).all validHeaderFieldByte = true := by
  induction l generalizing b with
  | nil => rfl
  | cons c rest ih =>
    simp only [List.all_cons, Bool.and_eq_true] at h
    simp only [canonBytes, List.all_cons, Bool.and_eq_true]
    refine ⟨?_, ih _ h.2⟩
    cases b
    · simpa using validHeaderFieldByte_toLower c h.1
    · simpa using validHeaderFieldByte_toUpper c h.1

/-- The canonical case-mapping is idempotent. -/
theorem canonBytes_idem (b : Bool) (l : List Nat) :
    canonBytes b (canonBytes b l) = canonBytes b l := by
  induction l generalizing b with
  | nil => rfl
  | cons c rest ih =>
    have hflag : decide ((if b then toUpperByte c else toLowerByte c) = 45) =
        decide (c = 45) := decide_eq_decide.mpr (caseByte_eq_45 b c)
    simp only [canonBytes]
    rw [hflag]
    congr 1
    · cases b
      · simpa using toLowerByte_idem c
      · simpa using toUpperByte_idem c
    · exact ih _

/-- canonicalMIMEHeaderKey is idempotent. -/
theorem canonicalMIMEHeaderKey_idem (s : ByteStr) :
    canonicalMIMEHeaderKey (canonicalMIMEHeaderKey s) = canonicalMIMEHeaderKey s := by
  cases h : s.all validHeaderFieldByte
  · simp [canonicalMIMEHeaderKey, h]
  · have h2 := canonBytes_all_valid true s h
    simp [canonicalMIMEHeaderKey, h, h2, canonBytes_idem]

/-- Looking up a key right after setting it yields exactly the set values. -/
theorem getVals_setVals_self {κ ν : Type} [DecidableEq κ]
    (m : List (κ × List ν)) (k : κ) (vs : List ν) :
    getVals (setVals m k vs) k = vs := by
  induction m with
  | nil => simp [setVals, getVals]
  | cons e rest ih =>
    by_cases h : e.1 = k
    · simp [setVals, getVals, h]
    · simp [setVals, getVals, h, ih]

/-- Claim C9: header keys are MIME-canonicalized by AddHeader and
SetHeader, so two calls whose keys canonicalize alike operate on one entry:
AddHeader k1 v then SetHeader k2 w leaves exactly the single value w under
the canonical key, and addHeaders transfers exactly those canonicalized
keys onto the materialized request. -/
theorem addHeader_setHeader_canonicalized {D P : Type} (s : Sling D P)
    (k1 k2 v w : ByteStr)
    (h : canonicalMIMEHeaderKey k1 = canonicalMIMEHeaderKey k2) :
    Header.ValuesOf (Sling.SetHeader (Sling.AddHeader s k1 v) k2 w).header k1 = [w] ∧
    (s.header = [] →
      (Sling.SetHeader (Sling.AddHeader s k1 v) k2 w).header =
        [(canonicalMIMEHeaderKey k1, [w])] ∧
      addHeaders [] (Sling.SetHeader (Sling.AddHeader s k1 v) k2 w).header =
        (Sling.SetHeader (Sling.AddHeader s k1 v) k2 w).header) := by
  refine ⟨?_, fun h0 => ?_⟩
  · show getVals (setVals (addVal s.header (canonicalMIMEHeaderKey k1) v)
      (canonicalMIMEHeaderKey k2) [w]) (canonicalMIMEHeaderKey k1) = [w]
    rw [h]
    exact getVals_setVals_self _ _ _
  · have e1 : (Sling.SetHeader (Sling.AddHeader s k1 v) k2 w).header =
        setVals (addVal s.header (canonicalMIMEHeaderKey k1) v)
          (canonicalMIMEHeaderKey k2) [w] := rfl
    rw [e1, h0]
    have e2 : setVals (addVal ([] : HeaderMap) (canonicalMIMEHeaderKey k1) v)
        (canonicalMIMEHeaderKey k2) [w] = [(canonicalMIMEHeaderKey k1, [w])] := by
      simp [addVal, setVals, h]
    rw [e2]
    refine ⟨rfl, ?_⟩
    show addHeaders [] [(canonicalMIMEHeaderKey k1, [w])] =
      [(canonicalMIMEHeaderKey k1, [w])]
    simp [addHeaders, Header.Add, addVal, canonicalMIMEHeaderKey_idem]

/-- Witness for addHeader_setHeader_canonicalized at the keys content-type
and Content-Type, which canonicalize to the same bytes. -/
theorem addHeader_setHeader_canonicalized_witness :
    canonicalMIMEHeaderKey ctLower = ctCanon ∧
    canonicalMIMEHeaderKey ctLower = canonicalMIMEHeaderKey ctCanon ∧
    Header.ValuesOf
      (Sling.SetHeader (Sling.AddHeader sampleSling ctLower [118]) ctCanon [119]).header
      ctLower = [[119]] :=
  ⟨by decide, by decide,
    (addHeader_setHeader_canonicalized sampleSling ctLower ctCanon [118] [119]
      (by decide)).1⟩

/-- Adding under a key appends to that key's values. -/
theorem getVals_addVal_self {κ ν : Type} [DecidableEq κ]
    (m : List (κ × List ν)) (k : κ) (v : ν) :
    getVals (addVal m k v) k = getVals m k ++ [v] := by
  induction m with
  | nil => simp [addVal, getVals]
  | cons e rest ih =>
    by_cases h : e.1 = k
    · simp [addVal, getVals, h]
    · simp [addVal, getVals, h, ih]

/-- Adding under a key leaves every other key's values unchanged. -/
theorem getVals_addVal_ne {κ ν : Type} [DecidableEq κ]
    (m : List (κ × List ν)) (k k' : κ) (v : ν) (hk : k' ≠ k) :
    getVals (addVal m k v) k' = getVals m k' := by
  induction m with
  | nil =>
    simp only [addVal, getVals]
    exact if_neg (fun hh => hk hh.symm)
  | cons e rest ih =>
    by_cases h : e.1 = k
    · have hne : ¬ e.1 = k' := fun hc => hk (hc.symm.trans h)
      simp only [addVal, if_pos h, getVals]
      rw [if_neg hne, if_neg hne]
    · simp only [addVal, if_neg h, getVals]
      by_cases h2 : e.1 = k'
      · rw [if_pos h2, if_pos h2]
      · rw [if_neg h2, if_neg h2, ih]

/-- Folding one value list under a fixed key appends it to that key and
leaves other keys alone. -/
theorem getVals_addAll {κ ν : Type} [DecidableEq κ]
    (ws : List ν) (m : List (κ × List ν)) (k0 k : κ) :
    getVals (ws.foldl (fun b v => addVal b k0 v) m) k =
      getVals m k ++ (if k0 = k then ws else []) := by
  induction ws generalizing m with
  | nil => simp
  | cons w ws ih =>
    simp only [List.foldl_cons]
    rw [ih]
    by_cases h : k0 = k
    · subst h
      rw [getVals_addVal_self]
      simp
    · rw [getVals_addVal_ne m k0 k w (Ne.symm h)]
      simp [h]

/-- Merging one encoded struct appends, under every key, exactly the
values the struct holds under that key, in order. -/
theorem getVals_addStructVals (qv : Values) (vs : Values) (k : String) :
    getVals (addStructVals vs qv) k =
      getVals vs k ++ ((qv.filter (fun e => e.1 == k)).map Prod.snd).flatten := by
  induction qv generalizing vs with
  | nil => simp [addStructVals]
  | cons e rest ih =>
    simp only [addStructVals]
    rw [ih, getVals_addAll]
    by_cases h : e.1 = k
    · simp [List.filter_cons, beq_iff_eq, h, List.append_assoc]
    · simp [List.filter_cons, beq_iff_eq, h]

/-- Applying the flat param map appends, under every key, exactly the
values the map holds under that key. -/
theorem getVals_addPairs (ps : List (String × String)) (vs : Values) (k : String) :
    getVals (addPairs vs ps) k = getVals vs k ++ paramContrib ps k := by
  induction ps generalizing vs with
  | nil => simp [addPairs, paramContrib]
  | cons p rest ih =>
    simp only [addPairs]
    rw [ih]
    by_cases h : p.1 = k
    · rw [h, getVals_addVal_self]
      simp [paramContrib, List.filter_cons, beq_iff_eq, h, List.append_assoc]
    · rw [getVals_addVal_ne vs p.1 k p.2 (Ne.symm h)]
      simp [paramContrib, List.filter_cons, beq_iff_eq, h]

/-- When every struct encodes, mergeStructs succeeds. -/
theorem mergeStructs_isOk (vs : Values) (structs : List (Except String Values))
    (h : ∀ x ∈ structs, exceptOk x = true) :
    mergeStructs vs structs = Except.ok (okOr [] (mergeStructs vs structs)) := by
  induction structs generalizing vs with
  | nil => rfl
  | cons x rest ih =>
    cases x with
    | error e => exact absurd (h _ (List.mem_cons_self _ _)) (by simp [exceptOk])
    | ok qv =>
      simp only [mergeStructs]
      exact ih _ (fun y hy => h y (List.mem_cons_of_mem _ hy))

/-- When every struct encodes, the merged values hold, under every key,
the initial values followed by the struct contributions in order. -/
theorem getVals_mergeStructs (vs : Values) (structs : List (Except String Values))
    (k : String) (h : ∀ x ∈ structs, exceptOk x = true) :
    getVals (okOr [] (mergeStructs vs structs)) k =
      getVals vs k ++ structContrib structs k := by
  induction structs generalizing vs with
  | nil => simp [mergeStructs, okOr, structContrib]
  | cons x rest ih =>
    cases x with
    | error e => exact absurd (h _ (List.mem_cons_self _ _)) (by simp [exceptOk])
    | ok qv =>
      simp only [mergeStructs]
      rw [ih _ (fun y hy => h y (List.mem_cons_of_mem _ hy)), getVals_addStructVals]
      simp [structContrib, List.append_assoc]

/-- The first failing struct encoding aborts mergeStructs with its error. -/
theorem mergeStructs_error (pre : List (Except String Values)) (e : String)
    (rest : List (Except String Values)) (vs : Values)
    (hpre : ∀ x ∈ pre, exceptOk x = true) :
    mergeStructs vs (pre ++ Except.error e :: rest) = Except.error e := by
  induction pre generalizing vs with
  | nil => rfl
  | cons x t ih =>
    cases x with
    | error e2 => exact absurd (hpre _ (List.mem_cons_self _ _)) (by simp [exceptOk])
    | ok qv =>
      simp only [List.cons_append, mergeStructs]
      exact ih _ (fun y hy => hpre y (List.mem_cons_of_mem _ hy))

/-- A key is in the map after an Add exactly when it was there or is the
added key. -/
theorem mem_keysOf_addVal {κ ν : Type} [DecidableEq κ]
    (m : List (κ × List ν)) (k k' : κ) (v : ν) :
    k' ∈ (addVal m k v).map Prod.fst ↔ k' ∈ m.map Prod.fst ∨ k' = k := by
  induction m with
  | nil => simp [addVal]
  | cons e rest ih =>
    by_cases h : e.1 = k
    · simp only [addVal, if_pos h, List.map_cons, List.mem_cons]
      constructor
      · rintro (hc | hc)
        · exact Or.inl (Or.inl hc)
        · exact Or.inl (Or.inr hc)
      · rintro ((hc | hc) | hc)
        · exact Or.inl hc
        · exact Or.inr hc
        · exact Or.inl (hc.trans h.symm)
    · simp only [addVal, if_neg h, List.map_cons, List.mem_cons, ih]
      tauto

/-- Add preserves distinctness of keys. -/
theorem nodup_keysOf_addVal {κ ν : Type} [DecidableEq κ]
    (m : List (κ × List ν)) (k : κ) (v : ν)
    (h : (m.map Prod.fst).Nodup) : ((addVal m k v).map Prod.fst).Nodup := by
  induction m with
  | nil => simp [addVal]
  | cons e rest ih =>
    simp only [List.map_cons, List.nodup_cons] at h
    by_cases hk : e.1 = k
    · simp only [addVal, if_pos hk, List.map_cons, List.nodup_cons]
      exact ⟨h.1, h.2⟩
    · simp only [addVal, if_neg hk, List.map_cons, List.nodup_cons]
      refine ⟨?_, ih h.2⟩
      rw [mem_keysOf_addVal]
      rintro (hc | hc)
      · exact h.1 hc
      · exact hk hc

/-- Folding one value list under a fixed key preserves key distinctness. -/
theorem nodup_keysOf_addAll {κ ν : Type} [DecidableEq κ]
    (ws : List ν) (m : List (κ × List ν)) (k0 : κ)
    (h : (m.map Prod.fst).Nodup) :
    ((ws.foldl (fun b v => addVal b k0 v) m).map Prod.fst).Nodup := by
  induction ws generalizing m with
  | nil => simpa
  | cons w t ih =>
    simp only [List.foldl_cons]
    exact ih _ (nodup_keysOf_addVal m k0 w h)

/-- Merging one encoded struct preserves key distinctness. -/
theorem nodup_keysOf_addStructVals (qv : Values) (vs : Values)
    (h : (vs.map Prod.fst).Nodup) : ((addStructVals vs qv).map Prod.fst).Nodup := by
  induction qv generalizing vs with
  | nil => simpa [addStructVals]
  | cons e rest ih =>
    simp only [addStructVals]
    exact ih _ (nodup_keysOf_addAll e.2 vs e.1 h)

/-- Applying the flat param map preserves key distinctness. -/
theorem nodup_keysOf_addPairs (ps : List (String × String)) (vs : Values)
    (h : (vs.map Prod.fst).Nodup) : ((addPairs vs ps).map Prod.fst).Nodup := by
  induction ps generalizing vs with
  | nil => simpa [addPairs]
  | cons p rest ih =>
    simp only [addPairs]
    exact ih _ (nodup_keysOf_addVal vs p.1 p.2 h)

/-- Merging all structs preserves key distinctness. -/
theorem nodup_keysOf_mergeStructs (structs : List (Except String Values))
    (vs : Values) (h : (vs.map Prod.fst).Nodup)
    (hall : ∀ x ∈ structs, exceptOk x = true) :
    ((okOr [] (mergeStructs vs structs)).map Prod.fst).Nodup := by
  induction structs generalizing vs with
  | nil => simpa [mergeStructs, okOr]
  | cons x rest ih =>
    cases x with
    | error e => exact absurd (hall _ (List.mem_cons_self _ _)) (by simp [exceptOk])
    | ok qv =>
      simp only [mergeStructs]
      exact ih _ (nodup_keysOf_addStructVals qv vs h)
        (fun y hy => hall y (List.mem_cons_of_mem _ hy))

/-- Membership in an insertion. -/
theorem mem_insertEntry (e f : String × List String) (vs : Values) :
    f ∈ insertEntry e vs ↔ f = e ∨ f ∈ vs := by
  induction vs with
  | nil => simp [insertEntry]
  | cons g rest ih =>
    by_cases h : e.1 ≤ g.1
    · simp [insertEntry, h]
    · simp only [insertEntry, if_neg h, List.mem_cons, ih]
      tauto

/-- Insertion into a key-sorted list keeps it key-sorted. -/
theorem pairwise_insertEntry (e : String × List String) (vs : Values)
    (h : vs.Pairwise (fun a b => a.1 ≤ b.1)) :
    (insertEntry e vs).Pairwise (fun a b => a.1 ≤ b.1) := by
  induction vs with
  | nil => simp [insertEntry]
  | cons f rest ih =>
    rcases List.pairwise_cons.mp h with ⟨hf, hrest⟩
    by_cases hle : e.1 ≤ f.1
    · simp only [insertEntry, if_pos hle]
      refine List.pairwise_cons.mpr ⟨?_, h⟩
      intro b hb
      rcases List.mem_cons.mp hb with rfl | hb2
      · exact hle
      · exact le_trans hle (hf b hb2)
    · simp only [insertEntry, if_neg hle]
      refine List.pairwise_cons.mpr ⟨?_, ih hrest⟩
      intro b hb
      rcases (mem_insertEntry e b rest).mp hb with rfl | hb2
      · exact le_of_not_le hle
      · exact hf b hb2

/-- The key sort produces a key-sorted list. -/
theorem pairwise_sortByKey (vs : Values) :
    (sortByKey vs).Pairwise (fun a b => a.1 ≤ b.1) := by
  induction vs with
  | nil => simp [sortByKey]
  | cons e rest ih => exact pairwise_insertEntry e _ ih

/-- Insertion is a permutation of consing. -/
theorem perm_insertEntry (e : String × List String) (vs : Values) :
    (insertEntry e vs).Perm (e :: vs) := by
  induction vs with
  | nil => exact List.Perm.refl _
  | cons f rest ih =>
    by_cases h : e.1 ≤ f.1
    · simp only [insertEntry, if_pos h]
      exact List.Perm.refl _
    · simp only [insertEntry, if_neg h]
      exact (List.Perm.cons f ih).trans (List.Perm.swap e f rest)

/-- The key sort permutes the entries. -/
theorem perm_sortByKey (vs : Values) : (sortByKey vs).Perm vs := by
  induction vs with
  | nil => exact List.Perm.refl _
  | cons e rest ih =>
    simp only [sortByKey]
    exact (perm_insertEntry e _).trans (List.Perm.cons e ih)

/-- Lookup after inserting an entry whose key is fresh. -/
theorem getVals_insertEntry (e : String × List String) (vs : Values) (k : String)
    (h : e.1 ∉ vs.map Prod.fst) :
    getVals (insertEntry e vs) k = if e.1 = k then e.2 else getVals vs k := by
  induction vs with
  | nil => simp [insertEntry, getVals]
  | cons f rest ih =>
    simp only [List.map_cons, List.mem_cons] at h
    push_neg at h
    by_cases hle : e.1 ≤ f.1
    · simp only [insertEntry, if_pos hle, getVals]
    · simp only [insertEntry, if_neg hle, getVals]
      rw [ih h.2]
      by_cases h2 : e.1 = k
      · by_cases h1 : f.1 = k
        · exact absurd (h2.trans h1.symm) h.1
        · simp [h1, h2]
      · simp [h2]

/-- With distinct keys the key sort does not change any lookup. -/
theorem getVals_sortByKey (vs : Values) (h : (vs.map Prod.fst).Nodup) (k : String) :
    getVals (sortByKey vs) k = getVals vs k := by
  induction vs with
  | nil => rfl
  | cons e rest ih =>
    simp only [List.map_cons, List.nodup_cons] at h
    simp only [sortByKey]
    have hmem : e.1 ∉ (sortByKey rest).map Prod.fst := fun hc =>
      h.1 (((perm_sortByKey rest).map Prod.fst).mem_iff.mp hc)
    rw [getVals_insertEntry e _ k hmem, ih h.2]
    rfl

/-- Every key of the flattened pair list is a key of the grouped list. -/
theorem mem_keys_flattenVals (vs : Values) (x : String)
    (h : x ∈ (flattenVals vs).map Prod.fst) : x ∈ vs.map Prod.fst := by
  induction vs with
  | nil => simp [flattenVals] at h
  | cons e rest ih =>
    simp only [flattenVals, List.map_append, List.mem_append, List.map_map] at h
    rcases h with h | h
    · simp only [List.mem_map, Function.comp] at h
      obtain ⟨v, _, hx⟩ := h
      simp [← hx]
    · simp [ih h]

/-- Flattening a key-sorted grouped list yields a key-sorted pair list. -/
theorem pairwise_keys_flattenVals (vs : Values)
    (h : vs.Pairwise (fun a b => a.1 ≤ b.1)) :
    ((flattenVals vs).map Prod.fst).Pairwise (fun a b => a ≤ b) := by
  induction vs with
  | nil => simp [flattenVals]
  | cons e rest ih =>
    rcases List.pairwise_cons.mp h with ⟨hf, hrest⟩
    simp only [flattenVals, List.map_append]
    rw [List.pairwise_append]
    refine ⟨?_, ih hrest, ?_⟩
    · rw [List.map_map]
      rw [List.pairwise_map]
      have : ∀ (l : List String), l.Pairwise (fun _ _ => e.1 ≤ e.1) := by
        intro l
        induction l with
        | nil => constructor
        | cons a t iht => exact List.Pairwise.cons (fun b _ => le_refl _) iht
      exact this e.2
    · intro a ha b hb
      rw [List.map_map] at ha
      simp only [List.mem_map, Function.comp] at ha
      obtain ⟨v, _, h1⟩ := ha
      have hb1 : b ∈ rest.map Prod.fst := mem_keys_flattenVals rest b hb
      obtain ⟨f, hf2, hfb⟩ := List.mem_map.mp hb1
      rw [← h1, ← hfb]
      exact hf f hf2

/-- A key absent from the grouped list contributes nothing to the filter
of the flattened list. -/
theorem filter_flattenVals_not_mem (vs : Values) (k : String)
    (h : k ∉ vs.map Prod.fst) :
    (flattenVals vs).filter (fun p => p.1 == k) = [] := by
  induction vs with
  | nil => rfl
  | cons e rest ih =>
    simp only [List.map_cons, List.mem_cons] at h
    push_neg at h
    have hne : ¬ (e.1 = k) := fun hh => h.1 hh.symm
    simp only [flattenVals, List.filter_append]
    rw [ih h.2]
    have hb1 : (e.2.map (fun v => (e.1, v))).filter (fun p => p.1 == k) = [] := by
      induction e.2 with
      | nil => rfl
      | cons v t iht => simp [List.filter_cons, beq_iff_eq, hne, iht]
    rw [hb1]
    rfl

/-- With distinct keys, filtering the flattened list at a key recovers
exactly that key's values, paired with the key. -/
theorem filter_flattenVals (vs : Values) (k : String)
    (h : (vs.map Prod.fst).Nodup) :
    (flattenVals vs).filter (fun p => p.1 == k) =
      (getVals vs k).map (fun v => (k, v)) := by
  induction vs with
  | nil => rfl
  | cons e rest ih =>
    simp only [List.map_cons, List.nodup_cons] at h
    simp only [flattenVals, List.filter_append, getVals]
    by_cases hk : e.1 = k
    · have hb1 : (e.2.map (fun v => (e.1, v))).filter (fun p => p.1 == k) =
          e.2.map (fun v => (e.1, v)) := by
        induction e.2 with
        | nil => rfl
        | cons v t iht => simp [List.filter_cons, beq_iff_eq, hk, iht]
      have hb2 : (flattenVals rest).filter (fun p => p.1 == k) = [] :=
        filter_flattenVals_not_mem rest k (by rw [← hk]; exact h.1)
      rw [hb1, hb2, if_pos hk, List.append_nil, hk]
    · have hne : ¬ (e.1 = k) := hk
      have hb1 : (e.2.map (fun v => (e.1, v))).filter (fun p => p.1 == k) = [] := by
        induction e.2 with
        | nil => rfl
        | cons v t iht => simp [List.filter_cons, beq_iff_eq, hne, iht]
      rw [hb1, if_neg hk, List.nil_append]
      exact ih h.2

/-- The encoded query string is key-sorted. -/
theorem pairwise_keys_encodeVals (vs : Values) :
    ((encodeVals vs).map Prod.fst).Pairwise (fun a b => a ≤ b) :=
  pairwise_keys_flattenVals _ (pairwise_sortByKey vs)

/-- With distinct keys, the encoded query string carries, at every key,
exactly that key's values. -/
theorem filter_encodeVals (vs : Values) (k : String)
    (h : (vs.map Prod.fst).Nodup) :
    ((encodeVals vs).filter (fun p => p.1 == k)).map Prod.snd = getVals vs k := by
  have hnd : ((sortByKey vs).map Prod.fst).Nodup :=
    ((perm_sortByKey vs).map Prod.fst).nodup_iff.mpr h
  have hs := getVals_sortByKey vs h k
  rw [encodeVals, filter_flattenVals _ _ hnd, hs]
  simp [List.map_map, Function.comp]

/-- Claim C4: with a parsed pre-existing query whose keys are distinct,
when every attached struct encodes, buildQueryParamUrl succeeds, the
resulting query string is alphabetically key-sorted whatever the
attachment order was, and under every key it carries exactly the
pre-existing values, then the struct contributions in attachment order,
then the flat param map values — no source drops or overrides another;
and the first struct encoding failure aborts with that error. -/
theorem buildQueryParamUrl_merge (initial : Values)
    (structs : List (Except String Values)) (params : List (String × String))
    (hn : (initial.map Prod.fst).Nodup) :
    ((∀ x ∈ structs, exceptOk x = true) →
      exceptOk (buildQueryParamUrl (Except.ok initial) structs params) = true ∧
      ((okOr [] (buildQueryParamUrl (Except.ok initial) structs params)).map
        Prod.fst).Pairwise (fun a b => a ≤ b) ∧
      (∀ k, ((okOr [] (buildQueryParamUrl (Except.ok initial) structs params)).filter
          (fun p => p.1 == k)).map Prod.snd =
        getVals initial k ++ structContrib structs k ++ paramContrib params k)) ∧
    (∀ pre e rest, structs = pre ++ Except.error e :: rest →
      (∀ x ∈ pre, exceptOk x = true) →
      buildQueryParamUrl (Except.ok initial) structs params = Except.error e) := by
  constructor
  · intro hall
    have hunfold : buildQueryParamUrl (Except.ok initial) structs params =
        (match mergeStructs initial structs with
          | Except.error e => Except.error e
          | Except.ok vs => Except.ok (encodeVals (addPairs vs params))) := rfl
    cases hms : mergeStructs initial structs with
    | error e0 =>
      have hok := mergeStructs_isOk initial structs hall
      rw [hms] at hok
      exact absurd hok (by simp)
    | ok mv =>
      have hb : buildQueryParamUrl (Except.ok initial) structs params =
          Except.ok (encodeVals (addPairs mv params)) := by
        rw [hunfold, hms]
      have hmv : okOr [] (mergeStructs initial structs) = mv := by
        rw [hms]; rfl
      have hnodupmv : (mv.map Prod.fst).Nodup := by
        have := nodup_keysOf_mergeStructs structs initial hn hall
        rwa [hmv] at this
      have hgetmv : ∀ k, getVals mv k = getVals initial k ++ structContrib structs k := by
        intro k
        have := getVals_mergeStructs initial structs k hall
        rwa [hmv] at this
      have hnodup2 : ((addPairs mv params).map Prod.fst).Nodup :=
        nodup_keysOf_addPairs params mv hnodupmv
      refine ⟨by rw [hb]; rfl, ?_, ?_⟩
      · rw [hb]
        exact pairwise_keys_encodeVals _
      · intro k
        rw [hb]
        show ((encodeVals (addPairs mv params)).filter (fun p => p.1 == k)).map
          Prod.snd = _
        rw [filter_encodeVals _ _ hnodup2, getVals_addPairs, hgetmv k]
  · intro pre e rest heq hpre
    subst heq
    have hunfold : buildQueryParamUrl (Except.ok initial)
        (pre ++ Except.error e :: rest) params =
        (match mergeStructs initial (pre ++ Except.error e :: rest) with
          | Except.error e2 => Except.error e2
          | Except.ok vs => Except.ok (encodeVals (addPairs vs params))) := rfl
    rw [hunfold, mergeStructs_error pre e rest initial hpre]

/-- Witness for buildQueryParamUrl_merge: pre-existing key b, struct key
a, flat param key c; the merge succeeds, is key-sorted, carries exactly
the struct value under a, and an encoding failure aborts. -/
theorem buildQueryParamUrl_merge_witness :
    exceptOk (buildQueryParamUrl (Except.ok [("b", ["0"])])
      [Except.ok [("a", ["1"])]] [("c", "x")]) = true ∧
    ((okOr [] (buildQueryParamUrl (Except.ok [("b", ["0"])])
      [Except.ok [("a", ["1"])]] [("c", "x")])).map Prod.fst).Pairwise
      (fun a b => a ≤ b) ∧
    ((okOr [] (buildQueryParamUrl (Except.ok [("b", ["0"])])
      [Except.ok [("a", ["1"])]] [("c", "x")])).filter
      (fun p => p.1 == ("a"))).map Prod.snd = ["1"] ∧
    buildQueryParamUrl (Except.ok [("b", ["0"])])
      [Except.error ("encode fail")] [("c", "x")] = Except.error ("encode fail") := by
  refine ⟨((buildQueryParamUrl_merge [("b", ["0"])] [Except.ok [("a", ["1"])]]
      [("c", "x")] (by decide)).1 (by decide)).1,
    ((buildQueryParamUrl_merge [("b", ["0"])] [Except.ok [("a", ["1"])]]
      [("c", "x")] (by decide)).1 (by decide)).2.1,
    (((buildQueryParamUrl_merge [("b", ["0"])] [Except.ok [("a", ["1"])]]
      [("c", "x")] (by decide)).1 (by decide)).2.2 ("a")).trans (by decide),
    (buildQueryParamUrl_merge [("b", ["0"])] [Except.error ("encode fail")]
      [("c", "x")] (by decide)).2 [] ("encode fail") [] rfl (by decide)⟩
